import Mathlib

/-!
Verification of the smugglrs reverse-tunneling relay.

This file gives a shallow embedding of the pure core of the repository
(`src/crypto.rs`, `src/config.rs`, `src/server.rs`, `src/gateway.rs`) and
settles the frozen claims about it.

Bytes are modelled as `Nat` (valid when `< 256`); byte strings are
`List Nat`.  The external `aes_gcm` crate (an external collaborator of the
repository, not part of its sources) is modelled as an ideal AEAD: a
ciphertext is a record of the key, the nonce and the plaintext, and
decryption succeeds exactly when key and nonce match — the standard
symbolic model of an authenticated cipher.  Everything else is translated
directly from the Rust sources.
-/

namespace Smugglrs

/-! ## Constants, from `src/crypto.rs`, `src/common.rs`, `src/gateway.rs` -/

def AEAD_LENGTH : Nat := 16

def NONCE_LENGTH : Nat := 12

def KEY_LENGTH : Nat := 32

def ENCRYPTED_CHALLENGE_LENGTH : Nat := KEY_LENGTH + NONCE_LENGTH + AEAD_LENGTH

def MAGIC2_LENGTH : Nat := 32

/-- `MAGIC2` from `src/crypto.rs`: known plaintext proving knowledge of the PSK. -/
def MAGIC2 : List Nat :=
  [198, 158, 252, 226, 190, 135, 45, 91, 254, 58, 121, 222, 55, 121, 188,
   144, 42, 174, 18, 202, 227, 208, 46, 22, 31, 81, 62, 77, 45, 14, 42, 98]

def MAGIC1_LENGTH : Nat := 17

def TCP_CHALLENGE_LENGTH : Nat := 14

def BUSY_LOOP_DELAY : Nat := 15

def CONNECT_TIMEOUT : Nat := 2000

/-! ## Ideal AEAD model of the external `aes_gcm` crate

`Aes256Gcm::encrypt` produces `plaintext.len() + 16` bytes (ciphertext plus
a 16-byte tag); `Aes256Gcm::decrypt` recovers the plaintext under the same
key and nonce and fails otherwise.  The symbolic ciphertext below records
exactly the data the real ciphertext binds. -/

structure AeadCiphertext where
  key : List Nat
  nonce : List Nat
  plaintext : List Nat
deriving DecidableEq

/-- Symbolic `Aes256Gcm::encrypt` (one-shot, explicit nonce). -/
def aeadEncrypt (key nonce pt : List Nat) : AeadCiphertext :=
  ⟨key, nonce, pt⟩

/-- Symbolic `Aes256Gcm::decrypt` (one-shot, explicit nonce): succeeds
exactly when the ciphertext was produced under the same key and nonce. -/
def aeadDecrypt (key nonce : List Nat) (ct : AeadCiphertext) : Option (List Nat) :=
  if ct.key = key ∧ ct.nonce = nonce then some ct.plaintext else none

/-- On-wire size of an AEAD frame: plaintext plus the 16-byte tag. -/
def AeadCiphertext.byteLength (ct : AeadCiphertext) : Nat :=
  ct.plaintext.length + AEAD_LENGTH

/-! ## `Cipher` — the AEAD session object of `src/crypto.rs` -/

/-- `Cipher::increase_nonce`: walk from byte 0 upward, increment the first
byte that is below `u8::MAX`, zero every `0xFF` byte passed through. -/
def increase_nonce : List Nat → List Nat
  | [] => []
  | b :: rest => if b < 255 then (b + 1) :: rest else 0 :: increase_nonce rest

/-- The session cipher: an AES-256-GCM context (identified by its key in the
symbolic model) plus the 12-byte nonce counter. -/
structure Cipher where
  key : List Nat
  nonce : List Nat
deriving DecidableEq

/-- `Cipher::new`: stores key and nonce, then advances the nonce once. -/
def Cipher.new (key nonce : List Nat) : Cipher :=
  ⟨key, increase_nonce nonce⟩

/-- `Cipher::encrypt`: encrypt under the current nonce, then advance it. -/
def Cipher.encrypt (c : Cipher) (pt : List Nat) : AeadCiphertext × Cipher :=
  (aeadEncrypt c.key c.nonce pt, ⟨c.key, increase_nonce c.nonce⟩)

/-- `Cipher::decrypt`: attempt decryption under the current nonce; the nonce
is advanced only when the decryption succeeds (`src/crypto.rs` line 70). -/
def Cipher.decrypt (c : Cipher) (ct : AeadCiphertext) : Option (List Nat) × Cipher :=
  match aeadDecrypt c.key c.nonce ct with
  | some pt => (some pt, ⟨c.key, increase_nonce c.nonce⟩)
  | none => (none, c)

/-! ## `constant_eq` from `src/crypto.rs` -/

/-- `constant_eq`: length check, then XOR every byte pair into an OR
accumulator and compare the accumulator with zero. -/
def constant_eq (x y : List Nat) : Bool :=
  if x.length ≠ y.length then false
  else ((x.zip y).foldl (fun acc p => acc ||| (p.1 ^^^ p.2)) 0) == 0

/-- Number of byte comparisons `constant_eq` performs: its loop
`for i in 0..x_len` runs only after the length guard passed, so a call with
unequal lengths performs none. -/
def constant_eq_comparisons (x y : List Nat) : Nat :=
  if x.length ≠ y.length then 0 else x.length

/-! ## `Port` from `src/config.rs` -/

inductive Protocol
  | UDP
  | TCP
deriving DecidableEq

structure Port where
  port : Nat
  protocol : Protocol
deriving DecidableEq

/-- `Port::to_bytes`: big-endian `u16` port, then the tag byte
(0 = UDP, 1 = TCP).  The port number is a `u16`, i.e. `< 65536`. -/
def Port.to_bytes (p : Port) : List Nat :=
  [p.port / 256, p.port % 256,
   match p.protocol with
   | Protocol.UDP => 0
   | Protocol.TCP => 1]

/-- `Port::from_bytes`: `none` models the `panic!("malformed port received")`
the source raises on a tag byte that is neither 0 nor 1 (a Rust panic
unwinds out of the session, it is not a recoverable `Result` error). -/
def Port.from_bytes (buf : List Nat) : Option Port :=
  match buf with
  | [b0, b1, b2] =>
    match b2 with
    | 0 => some ⟨b0 * 256 + b1, Protocol.UDP⟩
    | 1 => some ⟨b0 * 256 + b1, Protocol.TCP⟩
    | _ => none
  | _ => none

def Port.new_tcp (port : Nat) : Port :=
  ⟨port, Protocol.TCP⟩

/-! ## Handshake engine (`challenge` / `answer_challenge`, `src/crypto.rs`)

The two routines run over a TCP stream; here the stream is the explicit
message exchanged.  `challenge` splits into the part before the blocking
read (what the gateway writes) and the part after it (what it does with the
server's 48-byte reply). -/

/-- What `challenge` writes on the stream: the clear init nonce followed by
the PSK-encrypted 44-byte control material. -/
structure ChallengeMessage where
  init_nonce : List Nat
  encrypted_key_and_nonce : AeadCiphertext
deriving DecidableEq

/-- First half of `challenge` (gateway): draw `init_nonce` and
`control_key_and_nonce` (passed in for the OS randomness), write the nonce
in clear and the control material encrypted under the PSK. -/
def challenge_send (key init_nonce control_key_and_nonce : List Nat) : ChallengeMessage :=
  ⟨init_nonce, aeadEncrypt key init_nonce control_key_and_nonce⟩

/-- Second half of `challenge` (gateway): decrypt the 48-byte reply under
`(control_key, control_nonce)`, check it is `MAGIC2` with `constant_eq`,
and on success return `Cipher::new(control_cipher, control_nonce)`. -/
def challenge_finish (control_key_and_nonce : List Nat) (magic2_test : AeadCiphertext) :
    Except String Cipher :=
  let control_key := control_key_and_nonce.take KEY_LENGTH
  let control_nonce := control_key_and_nonce.drop KEY_LENGTH
  match aeadDecrypt control_key control_nonce magic2_test with
  | some m =>
    if constant_eq m MAGIC2 then Except.ok (Cipher.new control_key control_nonce)
    else Except.error "Challenge failed, decryption didn't complete properly"
  | none => Except.error "Challenge failed, decryption didn't complete properly"

/-- `answer_challenge` (server): decrypt the received control material under
the server's PSK; on success encrypt `MAGIC2` under the control material,
reply with it, and return `Cipher::new(control_cipher, control_nonce)`. -/
def answer_challenge (key : List Nat) (received : ChallengeMessage) :
    Except String (AeadCiphertext × Cipher) :=
  match aeadDecrypt key received.init_nonce received.encrypted_key_and_nonce with
  | some control_key_and_nonce =>
    let control_key := control_key_and_nonce.take KEY_LENGTH
    let control_nonce := control_key_and_nonce.drop KEY_LENGTH
    Except.ok (aeadEncrypt control_key control_nonce MAGIC2,
               Cipher.new control_key control_nonce)
  | none => Except.error "Could not decrypt the server challenge"

/-- The composed handshake over a faithful byte-stream transcript: the
gateway (PSK `gateway_key`) writes its challenge, the server (PSK
`server_key`) answers it, the gateway finishes with the server's reply.
When the server aborts, the gateway's 48-byte read fails. -/
def handshake (gateway_key server_key init_nonce control_key_and_nonce : List Nat) :
    Except String Cipher × Except String Cipher :=
  let sent := challenge_send gateway_key init_nonce control_key_and_nonce
  match answer_challenge server_key sent with
  | Except.ok (reply, server_cipher) =>
    (challenge_finish control_key_and_nonce reply, Except.ok server_cipher)
  | Except.error e =>
    (Except.error "Failed to read encrypted MAGIC2", Except.error e)

/-! ## Server control plane (`src/server.rs`) -/

/-- The manifest bytes: the 3-byte serialization of every configured
redirect key, in iteration order (`ports.extend_from_slice(&port.to_bytes())`). -/
def manifestBytes (redirects : List Port) : List Nat :=
  redirects.foldl (fun acc p => acc ++ Port.to_bytes p) []

/-- The manifest block of `server` (`src/server.rs` lines 70-81): compute
`length = 3·N + 16` as a `u8` — an error when it does not fit — then send
the encrypted length frame followed by the encrypted manifest frame. -/
def serverSendManifest (c : Cipher) (redirects : List Port) :
    Except String (AeadCiphertext × AeadCiphertext × Cipher) :=
  let ports := manifestBytes redirects
  if redirects.length * 3 + AEAD_LENGTH ≤ 255 then
    let el := c.encrypt [redirects.length * 3 + AEAD_LENGTH]
    let ep := el.2.encrypt ports
    Except.ok (el.1, ep.1, ep.2)
  else Except.error "Too many forwarded port, should be less than 78"

/-- Whether a fallible step succeeded (`Result::is_ok`). -/
def isOkE {α : Type} : Except String α → Bool
  | Except.ok _ => true
  | Except.error _ => false

/-- `u16::from_be_bytes` on two bytes. -/
def u16_from_be (b0 b1 : Nat) : Nat := b0 * 256 + b1

/-- The redirect table lookup (`scfg.redirects.get`), the map modelled as an
association list with unique keys. -/
def lookupRedirect (redirects : List (Port × Nat)) (p : Port) : Option Nat :=
  match redirects.find? (fun e => decide (e.1 = p)) with
  | some e => some e.2
  | none => none

/-- Observable I/O actions of one server rendezvous iteration. -/
inductive ServerAction
  | dialGateway
  | sendTicket (ct : AeadCiphertext)
  | dialLocal (port : Nat)
deriving DecidableEq

/-- One iteration of the server rendezvous loop (`src/server.rs` lines
83-99), in source order: read and decrypt the 32-byte notification, extract
the big-endian port from the first two plaintext bytes, dial the gateway,
send the encrypted ticket on the new connection, only then consult the
redirect map (an unknown port is a fatal session error), and finally dial
the local loopback port.  The returned list records the I/O actions
actually performed before the iteration ended. -/
def serverHandleNotification (redirects : List (Port × Nat)) (c : Cipher)
    (notif : AeadCiphertext) : List ServerAction × Except String Cipher :=
  match c.decrypt notif with
  | (none, _) => ([], Except.error "Failed to decrypt control message")
  | (some msg, c1) =>
    let port := u16_from_be (msg.headD 0) ((msg.drop 1).headD 0)
    let ep := c1.encrypt (msg.drop 2)
    match lookupRedirect redirects (Port.new_tcp port) with
    | none =>
      ([ServerAction.dialGateway, ServerAction.sendTicket ep.1],
       Except.error "Server sent an invalid port")
    | some local_port =>
      ([ServerAction.dialGateway, ServerAction.sendTicket ep.1,
        ServerAction.dialLocal local_port],
       Except.ok ep.2)

/-! ## Gateway manifest parsing (`src/gateway.rs` lines 120-138) -/

/-- Result of a gateway processing stage, keeping a Rust `panic!` (process
abort) distinct from a session-level `Err` (which unwinds to pairing mode). -/
inductive Outcome (α : Type)
  | ok (a : α)
  | sessionError (msg : String)
  | panics
deriving DecidableEq

/-- The gateway's manifest loop body: `for i in 0..ports_raw.len()/3`,
parse chunk `i` with `Port::from_bytes`; a `none` (= panic) propagates.
Trailing 1 or 2 bytes are never touched by the loop. -/
def parsePortsList : List Nat → Option (List Port)
  | b0 :: b1 :: b2 :: rest =>
    match Port.from_bytes [b0, b1, b2], parsePortsList rest with
    | some p, some ps => some (p :: ps)
    | _, _ => none
  | _ => some []

/-- The `Port → index` map built alongside the list (`mapping.insert(port, i)`). -/
def portIndexMap : List Port → Nat → List (Port × Nat)
  | [], _ => []
  | p :: ps, i => (p, i) :: portIndexMap ps (i + 1)

/-- The gateway manifest parse: the port list in manifest order and the
port-to-index map.  `panics` when some record's tag byte is invalid; no
session-level error path exists in this stage of the source. -/
def gatewayParseManifest (raw : List Nat) : Outcome (List Port × List (Port × Nat)) :=
  match parsePortsList raw with
  | some ports => Outcome.ok (ports, portIndexMap ports 0)
  | none => Outcome.panics

/-! ## Gateway rendezvous candidate handling (`src/gateway.rs` lines 193-235) -/

/-- A candidate connection as the polling loop can observe it. -/
inductive Candidate
  | wrongIp
  | readTimeout
  | sends (ct : AeadCiphertext)
deriving DecidableEq

/-- Processing of one accepted candidate: a wrong source IP is ignored
without reading; a read timeout discards the candidate; otherwise the
30-byte reply is decrypted with the session cipher and compared with the
ticket by `constant_eq`.  Returns whether the candidate was accepted and
the cipher state afterwards. -/
def processCandidate (c : Cipher) (ticket : List Nat) (cand : Candidate) : Bool × Cipher :=
  match cand with
  | Candidate.wrongIp => (false, c)
  | Candidate.readTimeout => (false, c)
  | Candidate.sends ct =>
    match c.decrypt ct with
    | (some pt, c1) => (constant_eq pt ticket, c1)
    | (none, c1) => (false, c1)

/-- The empty-polling path of the rendezvous loop: on `WouldBlock`, error
out once `milis_elapsed` reached `CONNECT_TIMEOUT`, otherwise sleep
`BUSY_LOOP_DELAY` ms and add it to `milis_elapsed`.  The value counts the
polling iterations up to and including the erroring one. -/
def pollEmptyIters (milis_elapsed : Nat) : Nat :=
  if CONNECT_TIMEOUT ≤ milis_elapsed then 1
  else pollEmptyIters (milis_elapsed + BUSY_LOOP_DELAY) + 1
termination_by CONNECT_TIMEOUT + BUSY_LOOP_DELAY - milis_elapsed
decreasing_by simp [CONNECT_TIMEOUT, BUSY_LOOP_DELAY] at *; omega

/-! ## Nonce counter values -/

/-- The nonce read as a little-endian-over-bytes counter. -/
def nonceValue : List Nat → Nat
  | [] => 0
  | b :: rest => b + 256 * nonceValue rest

/-- Validity: every byte below 256. -/
abbrev validBytes (l : List Nat) : Prop := ∀ b ∈ l, b < 256

/-- `k`-fold nonce increment. -/
def iterNonce : Nat → List Nat → List Nat
  | 0, n => n
  | k + 1, n => iterNonce k (increase_nonce n)

/-- The nonce consumed by the `k`-th successful encryption/decryption of a
session cipher (counting from 0): each successful operation uses the
current nonce and then advances it. -/
def usedNonce (c : Cipher) (k : Nat) : List Nat := iterNonce k c.nonce

/-! ## Helper lemmas -/

theorem increase_nonce_length (n : List Nat) : (increase_nonce n).length = n.length := by
  induction n with
  | nil => rfl
  | cons b rest ih =>
    simp only [increase_nonce]
    split
    · simp
    · simp [ih]

theorem increase_nonce_valid : ∀ n : List Nat, validBytes n → validBytes (increase_nonce n) := by
  intro n
  induction n with
  | nil => intro h; simpa [increase_nonce] using h
  | cons b rest ih =>
    intro h
    have hb : b < 256 := h b (by simp)
    have hr : validBytes rest := fun x hx => h x (by simp [hx])
    simp only [increase_nonce]
    split
    · rename_i hlt
      intro x hx
      rcases List.mem_cons.mp hx with rfl | hx
      · omega
      · exact hr x hx
    · intro x hx
      rcases List.mem_cons.mp hx with rfl | hx
      · omega
      · exact ih hr x hx

theorem increase_nonce_ne (n : List Nat) (hn : n ≠ []) : increase_nonce n ≠ n := by
  cases n with
  | nil => exact absurd rfl hn
  | cons b rest =>
    simp only [increase_nonce]
    split
    · rename_i hb
      intro h
      have := List.head_eq_of_cons_eq h
      omega
    · rename_i hb
      intro h
      have := List.head_eq_of_cons_eq h
      omega

theorem nonceValue_lt : ∀ n : List Nat, validBytes n → nonceValue n < 256 ^ n.length := by
  intro n
  induction n with
  | nil => intro _; simp [nonceValue]
  | cons b rest ih =>
    intro h
    have hb : b < 256 := h b (by simp)
    have hv := ih (fun x hx => h x (by simp [hx]))
    simp only [nonceValue, List.length_cons, pow_succ]
    omega

theorem increase_nonce_value : ∀ n : List Nat, validBytes n →
    nonceValue (increase_nonce n) = (nonceValue n + 1) % 256 ^ n.length := by
  intro n
  induction n with
  | nil => intro _; simp [increase_nonce, nonceValue]
  | cons b rest ih =>
    intro h
    have hb : b < 256 := h b (by simp)
    have hr : validBytes rest := fun x hx => h x (by simp [hx])
    have hv := nonceValue_lt rest hr
    simp only [increase_nonce]
    split
    · rename_i hlt
      simp only [nonceValue, List.length_cons]
      have hsmall : b + 256 * nonceValue rest + 1 < 256 ^ (rest.length + 1) := by
        rw [pow_succ]; omega
      rw [Nat.mod_eq_of_lt hsmall]
      omega
    · rename_i hge
      have hb255 : b = 255 := by omega
      subst hb255
      simp only [nonceValue, List.length_cons]
      rw [ih hr, pow_succ]
      have h1 : 255 + 256 * nonceValue rest + 1 = 256 * (nonceValue rest + 1) := by ring
      rw [h1, Nat.mul_comm (256 ^ rest.length) 256, Nat.mul_mod_mul_left]
      omega

theorem iterNonce_length : ∀ (k : Nat) (n : List Nat), (iterNonce k n).length = n.length := by
  intro k
  induction k with
  | zero => intro n; rfl
  | succ k ih => intro n; simp only [iterNonce]; rw [ih, increase_nonce_length]

theorem iterNonce_valid : ∀ (k : Nat) (n : List Nat), validBytes n → validBytes (iterNonce k n) := by
  intro k
  induction k with
  | zero => intro n h; exact h
  | succ k ih => intro n h; exact ih _ (increase_nonce_valid n h)

theorem iterNonce_value : ∀ (k : Nat) (n : List Nat), validBytes n →
    nonceValue (iterNonce k n) = (nonceValue n + k) % 256 ^ n.length := by
  intro k
  induction k with
  | zero =>
    intro n h
    simp only [iterNonce, Nat.add_zero]
    rw [Nat.mod_eq_of_lt (nonceValue_lt n h)]
  | succ k ih =>
    intro n h
    simp only [iterNonce]
    rw [ih _ (increase_nonce_valid n h), increase_nonce_value n h, increase_nonce_length,
      Nat.mod_add_mod]
    congr 1
    omega

theorem or_eq_zero (a b : Nat) : a ||| b = 0 ↔ a = 0 ∧ b = 0 := by
  constructor
  · intro h
    constructor
    · apply Nat.eq_of_testBit_eq
      intro i
      have := congrArg (fun x => Nat.testBit x i) h
      simp [Nat.testBit_lor] at this
      simp [this.1]
    · apply Nat.eq_of_testBit_eq
      intro i
      have := congrArg (fun x => Nat.testBit x i) h
      simp [Nat.testBit_lor] at this
      simp [this.2]
  · rintro ⟨rfl, rfl⟩
    rfl

theorem xorFold_eq_zero : ∀ (l : List (Nat × Nat)) (a : Nat),
    l.foldl (fun acc p => acc ||| (p.1 ^^^ p.2)) a = 0 ↔ a = 0 ∧ ∀ p ∈ l, p.1 = p.2 := by
  intro l
  induction l with
  | nil => intro a; simp
  | cons p rest ih =>
    intro a
    simp only [List.foldl_cons]
    rw [ih]
    constructor
    · rintro ⟨h1, h2⟩
      obtain ⟨ha, hp⟩ := (or_eq_zero _ _).mp h1
      refine ⟨ha, ?_⟩
      intro q hq
      rcases List.mem_cons.mp hq with rfl | hq
      · exact Nat.xor_eq_zero.mp hp
      · exact h2 q hq
    · rintro ⟨rfl, h2⟩
      have hp : p.1 ^^^ p.2 = 0 := Nat.xor_eq_zero.mpr (h2 p (by simp))
      refine ⟨by simp [hp], ?_⟩
      intro q hq
      exact h2 q (by simp [hq])

theorem zip_all_eq : ∀ (x y : List Nat), x.length = y.length →
    ((∀ p ∈ x.zip y, p.1 = p.2) ↔ x = y) := by
  intro x
  induction x with
  | nil =>
    intro y h
    cases y with
    | nil => simp
    | cons b ys => simp at h
  | cons a xs ih =>
    intro y h
    cases y with
    | nil => simp at h
    | cons b ys =>
      simp only [List.zip_cons_cons, List.mem_cons, List.cons.injEq]
      rw [← ih ys (by simpa using h)]
      constructor
      · intro hall
        exact ⟨hall (a, b) (Or.inl rfl), fun p hp => hall p (Or.inr hp)⟩
      · rintro ⟨hab, hall⟩ p hp
        rcases hp with rfl | hp
        · exact hab
        · exact hall p hp

theorem constant_eq_iff (x y : List Nat) : constant_eq x y = true ↔ x = y := by
  unfold constant_eq
  split
  · rename_i hne
    simp only [Bool.false_eq_true, false_iff]
    intro h
    exact hne (by rw [h])
  · rename_i hlen
    push_neg at hlen
    rw [beq_iff_eq, xorFold_eq_zero]
    simp only [true_and]
    exact zip_all_eq x y hlen

theorem constant_eq_self (x : List Nat) : constant_eq x x = true :=
  (constant_eq_iff x x).mpr rfl

theorem constant_eq_false_of_ne (x y : List Nat) (h : x ≠ y) : constant_eq x y = false := by
  cases hb : constant_eq x y
  · rfl
  · exact absurd ((constant_eq_iff x y).mp hb) h

theorem manifestBytes_aux : ∀ (l : List Port) (acc : List Nat),
    (l.foldl (fun acc p => acc ++ Port.to_bytes p) acc).length = acc.length + 3 * l.length := by
  intro l
  induction l with
  | nil => intro acc; simp
  | cons p ps ih =>
    intro acc
    simp only [List.foldl_cons]
    rw [ih]
    simp [Port.to_bytes]
    omega

theorem manifestBytes_length (l : List Port) : (manifestBytes l).length = 3 * l.length := by
  unfold manifestBytes
  rw [manifestBytes_aux]
  simp

theorem pollEmptyIters_step (m : Nat) :
    pollEmptyIters m = if 2000 ≤ m then 1 else pollEmptyIters (m + 15) + 1 := by
  rw [pollEmptyIters]
  rfl

theorem pollEmptyIters_formula : ∀ (k m : Nat), 2000 ≤ m + 15 * k →
    (∀ j, j < k → m + 15 * j < 2000) → pollEmptyIters m = k + 1 := by
  intro k
  induction k with
  | zero =>
    intro m h _
    rw [pollEmptyIters_step, if_pos (by omega)]
  | succ k ih =>
    intro m h hj
    have h0 : m < 2000 := by have := hj 0 (by omega); omega
    rw [pollEmptyIters_step, if_neg (by omega)]
    rw [ih (m + 15) (by omega) (fun j hjk => by have := hj (j + 1) (by omega); omega)]

theorem parsePortsList_length :
    ∀ (raw : List Nat) (ports : List Port),
      parsePortsList raw = some ports → ports.length = raw.length / 3
  | [], ports, h => by
    rw [show parsePortsList [] = some [] from rfl] at h
    cases h
    rfl
  | [b0], ports, h => by
    rw [show parsePortsList [b0] = some [] from rfl] at h
    cases h
    simp
  | [b0, b1], ports, h => by
    rw [show parsePortsList [b0, b1] = some [] from rfl] at h
    cases h
    simp
  | b0 :: b1 :: b2 :: rest, ports, h => by
    rw [show parsePortsList (b0 :: b1 :: b2 :: rest) =
          (match Port.from_bytes [b0, b1, b2], parsePortsList rest with
           | some p, some ps => some (p :: ps)
           | _, _ => none) from rfl] at h
    cases hp : Port.from_bytes [b0, b1, b2] with
    | none => rw [hp] at h; simp at h
    | some p =>
      cases hr : parsePortsList rest with
      | none => rw [hp, hr] at h; simp at h
      | some ps =>
        rw [hp, hr] at h
        simp only [Option.some.injEq] at h
        subst h
        have ihl := parsePortsList_length rest ps hr
        simp only [List.length_cons, ihl]
        omega

theorem parsePortsList_get :
    ∀ (raw : List Nat) (ports : List Port) (i : Nat),
      parsePortsList raw = some ports → i < ports.length →
      ports[i]? = Port.from_bytes ((raw.drop (3 * i)).take 3)
  | [], ports, i, h, hi => by
    rw [show parsePortsList [] = some [] from rfl] at h
    cases h
    simp at hi
  | [b0], ports, i, h, hi => by
    rw [show parsePortsList [b0] = some [] from rfl] at h
    cases h
    simp at hi
  | [b0, b1], ports, i, h, hi => by
    rw [show parsePortsList [b0, b1] = some [] from rfl] at h
    cases h
    simp at hi
  | b0 :: b1 :: b2 :: rest, ports, i, h, hi => by
    rw [show parsePortsList (b0 :: b1 :: b2 :: rest) =
          (match Port.from_bytes [b0, b1, b2], parsePortsList rest with
           | some p, some ps => some (p :: ps)
           | _, _ => none) from rfl] at h
    cases hp : Port.from_bytes [b0, b1, b2] with
    | none => rw [hp] at h; simp at h
    | some p =>
      cases hr : parsePortsList rest with
      | none => rw [hp, hr] at h; simp at h
      | some ps =>
        rw [hp, hr] at h
        simp only [Option.some.injEq] at h
        subst h
        cases i with
        | zero => simpa using hp.symm
        | succ i =>
          have hd : (b0 :: b1 :: b2 :: rest).drop (3 * (i + 1)) = rest.drop (3 * i) := by
            have h3 : 3 * (i + 1) = 3 * i + 1 + 1 + 1 := by ring
            rw [h3, List.drop_succ_cons, List.drop_succ_cons, List.drop_succ_cons]
          rw [hd]
          simp only [List.getElem?_cons_succ]
          exact parsePortsList_get rest ps i hr (by simpa using hi)

theorem parsePortsList_append :
    ∀ (raw extra : List Nat), raw.length % 3 = 0 → extra.length ≤ 2 →
      parsePortsList (raw ++ extra) = parsePortsList raw
  | [], extra, _, he => by
    rcases extra with _ | ⟨a, _ | ⟨b, _ | ⟨c, t⟩⟩⟩
    · rfl
    · rfl
    · rfl
    · simp at he
  | [b0], extra, hm, he => by simp at hm
  | [b0, b1], extra, hm, he => by simp at hm
  | b0 :: b1 :: b2 :: rest, extra, hm, he => by
    have hm3 : rest.length % 3 = 0 := by
      simp only [List.length_cons] at hm
      omega
    have ih := parsePortsList_append rest extra hm3 he
    show parsePortsList (b0 :: b1 :: b2 :: (rest ++ extra)) = _
    rw [show parsePortsList (b0 :: b1 :: b2 :: (rest ++ extra)) =
          (match Port.from_bytes [b0, b1, b2], parsePortsList (rest ++ extra) with
           | some p, some ps => some (p :: ps)
           | _, _ => none) from rfl,
        show parsePortsList (b0 :: b1 :: b2 :: rest) =
          (match Port.from_bytes [b0, b1, b2], parsePortsList rest with
           | some p, some ps => some (p :: ps)
           | _, _ => none) from rfl,
        ih]

/-! ## Claim theorems -/

/-- C1: over a faithful byte-stream transcript, a gateway and server sharing
the same PSK both complete the handshake and obtain equal session ciphers:
the key is the first 32 bytes of the control material and the nonce is the
control nonce advanced once (so the first subsequent encryption on either
side uses the same nonce); a server holding any different PSK cannot
decrypt the challenge, and the gateway's `challenge` returns an error. -/
theorem handshake_mutual_auth (K Kbad init_nonce ckn : List Nat) (hne : Kbad ≠ K) :
    (handshake K K init_nonce ckn =
       (Except.ok (Cipher.new (ckn.take KEY_LENGTH) (ckn.drop KEY_LENGTH)),
        Except.ok (Cipher.new (ckn.take KEY_LENGTH) (ckn.drop KEY_LENGTH)))) ∧
    (Cipher.new (ckn.take KEY_LENGTH) (ckn.drop KEY_LENGTH)).key = ckn.take KEY_LENGTH ∧
    (Cipher.new (ckn.take KEY_LENGTH) (ckn.drop KEY_LENGTH)).nonce
      = increase_nonce (ckn.drop KEY_LENGTH) ∧
    (handshake K Kbad init_nonce ckn).1 = Except.error "Failed to read encrypted MAGIC2" ∧
    (handshake K Kbad init_nonce ckn).2 = Except.error "Could not decrypt the server challenge" := by
  refine ⟨?_, rfl, rfl, ?_, ?_⟩
  · unfold handshake challenge_send answer_challenge challenge_finish
    simp [aeadDecrypt, aeadEncrypt, constant_eq_self]
  · unfold handshake challenge_send answer_challenge
    simp [aeadDecrypt, aeadEncrypt, Ne.symm hne]
  · unfold handshake challenge_send answer_challenge
    simp [aeadDecrypt, aeadEncrypt, Ne.symm hne]

theorem handshake_mutual_auth_witness :
    (List.replicate 32 34 : List Nat) ≠ List.replicate 32 17 ∧
    (handshake (List.replicate 32 17) (List.replicate 32 17) (List.replicate 12 0)
         (List.replicate 44 7) =
       (Except.ok (Cipher.new ((List.replicate 44 7).take KEY_LENGTH)
          ((List.replicate 44 7).drop KEY_LENGTH)),
        Except.ok (Cipher.new ((List.replicate 44 7).take KEY_LENGTH)
          ((List.replicate 44 7).drop KEY_LENGTH)))) ∧
    (Cipher.new ((List.replicate 44 7).take KEY_LENGTH)
        ((List.replicate 44 7).drop KEY_LENGTH)).key = (List.replicate 44 7).take KEY_LENGTH ∧
    (Cipher.new ((List.replicate 44 7).take KEY_LENGTH)
        ((List.replicate 44 7).drop KEY_LENGTH)).nonce
      = increase_nonce ((List.replicate 44 7).drop KEY_LENGTH) ∧
    (handshake (List.replicate 32 17) (List.replicate 32 34) (List.replicate 12 0)
        (List.replicate 44 7)).1 = Except.error "Failed to read encrypted MAGIC2" ∧
    (handshake (List.replicate 32 17) (List.replicate 32 34) (List.replicate 12 0)
        (List.replicate 44 7)).2 = Except.error "Could not decrypt the server challenge" :=
  ⟨by decide,
   handshake_mutual_auth (List.replicate 32 17) (List.replicate 32 34) (List.replicate 12 0)
     (List.replicate 44 7) (by decide)⟩

/-- C2 (amended): `increase_nonce` adds one to the nonce read as a
little-endian 96-bit counter modulo `2^96`; across a session started from
control nonce `n`, as long as the counter does not wrap (fewer than
`2^96 - value(n) - 1` successful operations), the nonces consumed by
successful encrypt/decrypt calls are strictly increasing under the counter
ordering and no nonce value is reused.  (At a wrap the counter returns to
zero, which the counterexample exhibits.) -/
theorem nonce_counter_monotonic (key n : List Nat) (j k : Nat) (hv : validBytes n)
    (hlen : n.length = NONCE_LENGTH) (hjk : j < k)
    (hwrap : nonceValue n + 1 + k < 256 ^ NONCE_LENGTH) :
    nonceValue (increase_nonce n) = (nonceValue n + 1) % 256 ^ NONCE_LENGTH ∧
    nonceValue (usedNonce (Cipher.new key n) j) < nonceValue (usedNonce (Cipher.new key n) k) ∧
    usedNonce (Cipher.new key n) j ≠ usedNonce (Cipher.new key n) k := by
  have hvi : validBytes (increase_nonce n) := increase_nonce_valid n hv
  have hleni : (increase_nonce n).length = NONCE_LENGTH := by
    rw [increase_nonce_length, hlen]
  have hval : ∀ i, nonceValue (usedNonce (Cipher.new key n) i)
      = (nonceValue n + 1 + i) % 256 ^ NONCE_LENGTH := by
    intro i
    unfold usedNonce Cipher.new
    rw [iterNonce_value i _ hvi, hleni, increase_nonce_value n hv, hlen, Nat.mod_add_mod]
  have hm : ∀ i, i ≤ k → nonceValue (usedNonce (Cipher.new key n) i) = nonceValue n + 1 + i := by
    intro i hi
    rw [hval i, Nat.mod_eq_of_lt (by omega)]
  refine ⟨?_, ?_, ?_⟩
  · rw [increase_nonce_value n hv, hlen]
  · rw [hm j (by omega), hm k (by omega)]
    omega
  · intro he
    have hcv := congrArg nonceValue he
    rw [hm j (by omega), hm k (by omega)] at hcv
    omega

theorem nonce_counter_monotonic_witness :
    (validBytes (List.replicate 12 0) ∧ (List.replicate 12 0 : List Nat).length = NONCE_LENGTH ∧
      (0 : Nat) < 1 ∧ nonceValue (List.replicate 12 0) + 1 + 1 < 256 ^ NONCE_LENGTH) ∧
    (nonceValue (increase_nonce (List.replicate 12 0))
        = (nonceValue (List.replicate 12 0) + 1) % 256 ^ NONCE_LENGTH ∧
     nonceValue (usedNonce (Cipher.new (List.replicate 32 0) (List.replicate 12 0)) 0)
        < nonceValue (usedNonce (Cipher.new (List.replicate 32 0) (List.replicate 12 0)) 1) ∧
     usedNonce (Cipher.new (List.replicate 32 0) (List.replicate 12 0)) 0
        ≠ usedNonce (Cipher.new (List.replicate 32 0) (List.replicate 12 0)) 1) :=
  ⟨⟨by decide, by decide, by decide, by decide⟩,
   nonce_counter_monotonic (List.replicate 32 0) (List.replicate 12 0) 0 1 (by decide)
     (by decide) (by decide) (by decide)⟩

/-- C2 counterexample: a session whose control nonce is `254 :: 0xFF^11`
starts at counter value `2^96 - 1` after the constructor's increment; the
very next successful operation uses counter value 0, so the sequence of
used nonces is not strictly monotonically increasing. -/
theorem nonce_monotonic_counterexample :
    ¬ (nonceValue (usedNonce (Cipher.new (List.replicate 32 0)
          (254 :: List.replicate 11 255)) 0)
        < nonceValue (usedNonce (Cipher.new (List.replicate 32 0)
          (254 :: List.replicate 11 255)) 1)) := by
  decide

/-- C7: the empty-polling path of the gateway rendezvous loop terminates
with an error on exactly the 135th `WouldBlock` iteration (134 sleeps of
15 ms, accumulated wait 2010 ms ≥ the 2000 ms cap). -/
theorem poll_loop_iterations :
    pollEmptyIters 0 = 135 ∧ BUSY_LOOP_DELAY = 15 ∧ CONNECT_TIMEOUT = 2000 := by
  refine ⟨?_, rfl, rfl⟩
  have h := pollEmptyIters_formula 134 0 (by omega) (fun j hj => by omega)
  simpa using h

/-- C8: for every port with a 16-bit port number and protocol TCP or UDP,
`from_bytes (to_bytes p) = p`, and `to_bytes p` is exactly the 3 bytes
big-endian-port-then-tag, the tag being 0 for UDP and 1 for TCP. -/
theorem port_roundtrip (p : Port) (h : p.port < 65536) :
    Port.from_bytes (Port.to_bytes p) = some p ∧
    (Port.to_bytes p).length = 3 ∧
    Port.to_bytes p
      = [p.port / 256, p.port % 256,
         match p.protocol with
         | Protocol.UDP => 0
         | Protocol.TCP => 1] := by
  refine ⟨?_, rfl, rfl⟩
  obtain ⟨v, proto⟩ := p
  cases proto <;>
    · simp only [Port.to_bytes, Port.from_bytes, Option.some.injEq, Port.mk.injEq]
      exact ⟨by omega, trivial⟩

theorem port_roundtrip_witness :
    (9000 : Nat) < 65536 ∧
    Port.from_bytes (Port.to_bytes ⟨9000, Protocol.TCP⟩) = some ⟨9000, Protocol.TCP⟩ :=
  ⟨by decide, (port_roundtrip ⟨9000, Protocol.TCP⟩ (by decide)).1⟩

/-- C3 (amended): the server's manifest build succeeds exactly when
`3·N + 16` fits in a byte, i.e. for up to **79** redirects (not 78); on
success the length plaintext is `[3·N + 16]`, the encrypted length frame is
17 bytes and the encrypted manifest frame is `3·N + 16` bytes on the wire. -/
theorem manifest_length_frames (c : Cipher) (redirects : List Port) :
    (redirects.length ≤ 79 →
      serverSendManifest c redirects =
        Except.ok (aeadEncrypt c.key c.nonce [redirects.length * 3 + AEAD_LENGTH],
                   aeadEncrypt c.key (increase_nonce c.nonce) (manifestBytes redirects),
                   ⟨c.key, increase_nonce (increase_nonce c.nonce)⟩) ∧
      (aeadEncrypt c.key c.nonce [redirects.length * 3 + AEAD_LENGTH]).byteLength = 17 ∧
      (aeadEncrypt c.key (increase_nonce c.nonce) (manifestBytes redirects)).byteLength
        = redirects.length * 3 + AEAD_LENGTH) ∧
    (79 < redirects.length →
      serverSendManifest c redirects
        = Except.error "Too many forwarded port, should be less than 78") := by
  constructor
  · intro h
    refine ⟨?_, ?_, ?_⟩
    · unfold serverSendManifest
      rw [if_pos (by simp only [AEAD_LENGTH]; omega)]
      rfl
    · simp [AeadCiphertext.byteLength, aeadEncrypt, AEAD_LENGTH]
    · simp only [AeadCiphertext.byteLength, aeadEncrypt, manifestBytes_length]
      omega
  · intro h
    unfold serverSendManifest
    rw [if_neg (by simp only [AEAD_LENGTH]; omega)]

theorem manifest_length_frames_witness :
    (([] : List Port).length ≤ 79) ∧
    (serverSendManifest ⟨List.replicate 32 0, List.replicate 12 1⟩ [] =
       Except.ok (aeadEncrypt (List.replicate 32 0) (List.replicate 12 1)
                    [([] : List Port).length * 3 + AEAD_LENGTH],
                  aeadEncrypt (List.replicate 32 0) (increase_nonce (List.replicate 12 1))
                    (manifestBytes []),
                  ⟨List.replicate 32 0, increase_nonce (increase_nonce (List.replicate 12 1))⟩) ∧
     (aeadEncrypt (List.replicate 32 0) (List.replicate 12 1)
        [([] : List Port).length * 3 + AEAD_LENGTH]).byteLength = 17 ∧
     (aeadEncrypt (List.replicate 32 0) (increase_nonce (List.replicate 12 1))
        (manifestBytes [])).byteLength = ([] : List Port).length * 3 + AEAD_LENGTH) :=
  ⟨by decide,
   (manifest_length_frames ⟨List.replicate 32 0, List.replicate 12 1⟩ []).1 (by decide)⟩

/-- C3 counterexample: 79 configured redirects — one more than the claimed
bound of 78 — still build and send successfully (`3·79 + 16 = 253 ≤ 255`). -/
theorem manifest_bound_counterexample :
    ((List.range 79).map (fun i => Port.new_tcp (i + 1))).length = 79 ∧
    isOkE (serverSendManifest ⟨List.replicate 32 0, List.replicate 12 1⟩
      ((List.range 79).map (fun i => Port.new_tcp (i + 1)))) = true := by
  exact ⟨by decide, by decide⟩

/-- C4 (amended): the server reads and decrypts exactly 32 bytes per
notification and splits the plaintext into a 2-byte big-endian port and the
14-byte ticket; however it dials the gateway afresh and sends the encrypted
ticket **before** consulting the redirect map, so an unknown advertised
port aborts the session only after that dial and send; on a known port the
local loopback dial follows them. -/
theorem serverHandleNotification_eval (redirects : List (Port × Nat)) (c : Cipher)
    (notif : AeadCiphertext) (msg : List Nat) (hdec : (c.decrypt notif).1 = some msg) :
    serverHandleNotification redirects c notif =
      match lookupRedirect redirects
          (Port.new_tcp (u16_from_be (msg.headD 0) ((msg.drop 1).headD 0))) with
      | none =>
        ([ServerAction.dialGateway,
          ServerAction.sendTicket (((c.decrypt notif).2).encrypt (msg.drop 2)).1],
         Except.error "Server sent an invalid port")
      | some lp =>
        ([ServerAction.dialGateway,
          ServerAction.sendTicket (((c.decrypt notif).2).encrypt (msg.drop 2)).1,
          ServerAction.dialLocal lp],
         Except.ok (((c.decrypt notif).2).encrypt (msg.drop 2)).2) := by
  have hpair : c.decrypt notif = (some msg, (c.decrypt notif).2) := by rw [← hdec]
  unfold serverHandleNotification
  rw [hpair]

theorem rendezvous_order (redirects : List (Port × Nat)) (c : Cipher) (notif : AeadCiphertext)
    (msg : List Nat) (lp : Nat) (hdec : (c.decrypt notif).1 = some msg) :
    2 + TCP_CHALLENGE_LENGTH + AEAD_LENGTH = 32 ∧
    (serverHandleNotification redirects c notif).1.take 2
      = [ServerAction.dialGateway,
         ServerAction.sendTicket (((c.decrypt notif).2).encrypt (msg.drop 2)).1] ∧
    (lookupRedirect redirects
        (Port.new_tcp (u16_from_be (msg.headD 0) ((msg.drop 1).headD 0))) = none →
      (serverHandleNotification redirects c notif).1
        = [ServerAction.dialGateway,
           ServerAction.sendTicket (((c.decrypt notif).2).encrypt (msg.drop 2)).1] ∧
      (serverHandleNotification redirects c notif).2
        = Except.error "Server sent an invalid port") ∧
    (lookupRedirect redirects
        (Port.new_tcp (u16_from_be (msg.headD 0) ((msg.drop 1).headD 0))) = some lp →
      (serverHandleNotification redirects c notif).1
        = [ServerAction.dialGateway,
           ServerAction.sendTicket (((c.decrypt notif).2).encrypt (msg.drop 2)).1,
           ServerAction.dialLocal lp] ∧
      (serverHandleNotification redirects c notif).2
        = Except.ok (((c.decrypt notif).2).encrypt (msg.drop 2)).2) := by
  refine ⟨rfl, ?_, ?_, ?_⟩
  · rw [serverHandleNotification_eval redirects c notif msg hdec]
    cases hlk : lookupRedirect redirects
        (Port.new_tcp (u16_from_be (msg.headD 0) ((msg.drop 1).headD 0))) <;> rfl
  · intro hlk
    rw [serverHandleNotification_eval redirects c notif msg hdec, hlk]
    exact ⟨rfl, rfl⟩
  · intro hlk
    rw [serverHandleNotification_eval redirects c notif msg hdec, hlk]
    exact ⟨rfl, rfl⟩

theorem rendezvous_order_witness :
    ((Cipher.mk (List.replicate 32 3) (List.replicate 12 4)).decrypt
        (aeadEncrypt (List.replicate 32 3) (List.replicate 12 4)
          ([35, 40] ++ List.replicate 14 9))).1 = some ([35, 40] ++ List.replicate 14 9) ∧
    (lookupRedirect [(⟨9000, Protocol.TCP⟩, 8080)]
        (Port.new_tcp (u16_from_be (([35, 40] ++ List.replicate 14 9).headD 0)
          ((([35, 40] ++ List.replicate 14 9).drop 1).headD 0))) = some 8080 →
      (serverHandleNotification [(⟨9000, Protocol.TCP⟩, 8080)]
          (Cipher.mk (List.replicate 32 3) (List.replicate 12 4))
          (aeadEncrypt (List.replicate 32 3) (List.replicate 12 4)
            ([35, 40] ++ List.replicate 14 9))).1
        = [ServerAction.dialGateway,
           ServerAction.sendTicket
             ((((Cipher.mk (List.replicate 32 3) (List.replicate 12 4)).decrypt
                 (aeadEncrypt (List.replicate 32 3) (List.replicate 12 4)
                   ([35, 40] ++ List.replicate 14 9))).2).encrypt
               (([35, 40] ++ List.replicate 14 9).drop 2)).1,
           ServerAction.dialLocal 8080] ∧
      (serverHandleNotification [(⟨9000, Protocol.TCP⟩, 8080)]
          (Cipher.mk (List.replicate 32 3) (List.replicate 12 4))
          (aeadEncrypt (List.replicate 32 3) (List.replicate 12 4)
            ([35, 40] ++ List.replicate 14 9))).2
        = Except.ok ((((Cipher.mk (List.replicate 32 3) (List.replicate 12 4)).decrypt
              (aeadEncrypt (List.replicate 32 3) (List.replicate 12 4)
                ([35, 40] ++ List.replicate 14 9))).2).encrypt
            (([35, 40] ++ List.replicate 14 9).drop 2)).2) :=
  ⟨by decide,
   (rendezvous_order [(⟨9000, Protocol.TCP⟩, 8080)]
      (Cipher.mk (List.replicate 32 3) (List.replicate 12 4))
      (aeadEncrypt (List.replicate 32 3) (List.replicate 12 4)
        ([35, 40] ++ List.replicate 14 9))
      ([35, 40] ++ List.replicate 14 9) 8080 (by decide)).2.2.2⟩

/-- C4 counterexample: on a rendezvous notification advertising a port
absent from the redirect map, the server has already dialed the gateway and
sent the encrypted ticket when the fatal unknown-port error is raised: the
redirect map is consulted after the fresh dial and ticket send, not before. -/
theorem rendezvous_order_counterexample :
    (serverHandleNotification [(⟨9000, Protocol.TCP⟩, 8080)]
        ⟨List.replicate 32 3, List.replicate 12 4⟩
        (aeadEncrypt (List.replicate 32 3) (List.replicate 12 4)
          ([0, 80] ++ List.replicate 14 9))).1
      = [ServerAction.dialGateway,
         ServerAction.sendTicket
           (aeadEncrypt (List.replicate 32 3) (increase_nonce (List.replicate 12 4))
             (List.replicate 14 9))] ∧
    (serverHandleNotification [(⟨9000, Protocol.TCP⟩, 8080)]
        ⟨List.replicate 32 3, List.replicate 12 4⟩
        (aeadEncrypt (List.replicate 32 3) (List.replicate 12 4)
          ([0, 80] ++ List.replicate 14 9))).2
      = Except.error "Server sent an invalid port" := by
  constructor <;> rfl

/-- C5 (amended): a 3-byte port record whose tag byte is neither 0 nor 1
makes `Port::from_bytes` panic (modelled as `none`), which aborts the
manifest parse as a panic rather than as a session-level error; no
session-level error path exists in the gateway's manifest parse stage. -/
theorem port_from_bytes_panics (b0 b1 b2 : Nat) (rest raw : List Nat) (m : String)
    (h0 : b2 ≠ 0) (h1 : b2 ≠ 1) :
    Port.from_bytes [b0, b1, b2] = none ∧
    gatewayParseManifest (b0 :: b1 :: b2 :: rest) = Outcome.panics ∧
    gatewayParseManifest raw ≠ Outcome.sessionError m := by
  have hfb : Port.from_bytes [b0, b1, b2] = none := by
    rcases b2 with _ | _ | n
    · exact absurd rfl h0
    · exact absurd rfl h1
    · rfl
  refine ⟨hfb, ?_, ?_⟩
  · have hparse : parsePortsList (b0 :: b1 :: b2 :: rest) = none := by
      rw [show parsePortsList (b0 :: b1 :: b2 :: rest) =
            (match Port.from_bytes [b0, b1, b2], parsePortsList rest with
             | some p, some ps => some (p :: ps)
             | _, _ => none) from rfl, hfb]
    unfold gatewayParseManifest
    rw [hparse]
  · unfold gatewayParseManifest
    cases parsePortsList raw <;> simp

theorem port_from_bytes_panics_witness :
    ((2 : Nat) ≠ 0 ∧ (2 : Nat) ≠ 1) ∧
    (Port.from_bytes [0, 0, 2] = none ∧
     gatewayParseManifest (0 :: 0 :: 2 :: [1, 1]) = Outcome.panics ∧
     gatewayParseManifest [0, 0, 1] ≠ Outcome.sessionError "parse") :=
  ⟨⟨by decide, by decide⟩,
   port_from_bytes_panics 0 0 2 [1, 1] [0, 0, 1] "parse" (by decide) (by decide)⟩

/-- C5 counterexample: the record `[0, 0, 2]` (tag byte 2) makes
`Port::from_bytes` panic — `none` in the model — and the manifest parse
aborts as a panic, not as a session-level error as the claim states. -/
theorem port_invalid_tag_counterexample :
    Port.from_bytes [0, 0, 2] = none ∧
    gatewayParseManifest [0, 0, 2] = Outcome.panics :=
  ⟨rfl, rfl⟩

/-- C6 (amended): `Cipher::decrypt` is atomic — on failure the cipher state
is unchanged, on success the nonce advances exactly once.  In the gateway
candidate loop, a wrong-IP candidate, a read timeout or a failed
decryption discards the candidate with the cipher untouched, so a later
correct reply (encrypted under the current nonce) still decrypts; a
candidate whose 30 bytes decrypt successfully but carry the wrong ticket
is also discarded and polling continues, but the successful decryption has
advanced the nonce, so a correct reply under the previous nonce no longer
decrypts. -/
theorem decrypt_atomic_rendezvous (c : Cipher) (ct : AeadCiphertext) (t pt q : List Nat)
    (hn : c.nonce ≠ []) :
    ((c.decrypt ct).1 = none → (c.decrypt ct).2 = c) ∧
    ((c.decrypt ct).1 = some q → (c.decrypt ct).2 = Cipher.mk c.key (increase_nonce c.nonce)) ∧
    processCandidate c t Candidate.wrongIp = (false, c) ∧
    processCandidate c t Candidate.readTimeout = (false, c) ∧
    (aeadDecrypt c.key c.nonce ct = none →
      processCandidate c t (Candidate.sends ct) = (false, c)) ∧
    (c.decrypt (aeadEncrypt c.key c.nonce t)).1 = some t ∧
    (aeadDecrypt c.key c.nonce ct = some pt → pt ≠ t →
      processCandidate c t (Candidate.sends ct)
        = (false, Cipher.mk c.key (increase_nonce c.nonce)) ∧
      ((Cipher.mk c.key (increase_nonce c.nonce)).decrypt
          (aeadEncrypt c.key c.nonce t)).1 = none) := by
  have hred : processCandidate c t (Candidate.sends ct)
      = match c.decrypt ct with
        | (some pt2, c1) => (constant_eq pt2 t, c1)
        | (none, c1) => (false, c1) := rfl
  refine ⟨?_, ?_, rfl, rfl, ?_, ?_, ?_⟩
  · intro h
    unfold Cipher.decrypt at h ⊢
    cases ha : aeadDecrypt c.key c.nonce ct
    · rfl
    · rw [ha] at h
      simp at h
  · intro h
    unfold Cipher.decrypt at h ⊢
    cases ha : aeadDecrypt c.key c.nonce ct
    · rw [ha] at h
      simp at h
    · rfl
  · intro ha
    have hdc : c.decrypt ct = (none, c) := by
      unfold Cipher.decrypt
      rw [ha]
    rw [hred, hdc]
  · unfold Cipher.decrypt aeadDecrypt aeadEncrypt
    simp
  · intro ha hne
    have hc : constant_eq pt t = false := constant_eq_false_of_ne pt t hne
    have hdc : c.decrypt ct = (some pt, Cipher.mk c.key (increase_nonce c.nonce)) := by
      unfold Cipher.decrypt
      rw [ha]
    constructor
    · rw [hred, hdc]
      rw [show (match (some pt, Cipher.mk c.key (increase_nonce c.nonce)) with
            | (some pt2, c1) => (constant_eq pt2 t, c1)
            | (none, c1) => (false, c1))
          = (constant_eq pt t, Cipher.mk c.key (increase_nonce c.nonce)) from rfl, hc]
    · unfold Cipher.decrypt aeadDecrypt aeadEncrypt
      rw [if_neg (fun hcond => increase_nonce_ne c.nonce hn hcond.2.symm)]

theorem decrypt_atomic_rendezvous_witness :
    (List.replicate 12 2 : List Nat) ≠ [] ∧
    processCandidate ⟨List.replicate 32 1, List.replicate 12 2⟩ (List.replicate 14 5)
        Candidate.wrongIp
      = (false, ⟨List.replicate 32 1, List.replicate 12 2⟩) :=
  ⟨by decide,
   (decrypt_atomic_rendezvous ⟨List.replicate 32 1, List.replicate 12 2⟩
      (aeadEncrypt (List.replicate 32 1) (List.replicate 12 2) (List.replicate 14 6))
      (List.replicate 14 5) (List.replicate 14 6) (List.replicate 14 6)
      (by decide)).2.2.1⟩

/-- C6 counterexample: a candidate whose 30-byte reply decrypts correctly
but carries the wrong ticket is discarded, yet the successful decryption
advanced the session nonce; the server's correct reply, encrypted under the
previous nonce, then no longer decrypts — the session cipher is *not* able
to decrypt a later correct reply after such a candidate. -/
theorem wrong_ticket_counterexample :
    processCandidate ⟨List.replicate 32 1, List.replicate 12 2⟩ (List.replicate 14 5)
        (Candidate.sends (aeadEncrypt (List.replicate 32 1) (List.replicate 12 2)
          (List.replicate 14 6)))
      = (false, ⟨List.replicate 32 1, increase_nonce (List.replicate 12 2)⟩) ∧
    ((Cipher.mk (List.replicate 32 1) (increase_nonce (List.replicate 12 2))).decrypt
        (aeadEncrypt (List.replicate 32 1) (List.replicate 12 2)
          (List.replicate 14 5))).1 = none := by
  constructor <;> rfl

/-- C9 (amended): `constant_eq x y` is true exactly when `x = y`; when the
lengths agree its loop performs exactly `|x| = min(|x|, |y|)` byte
comparisons, but when the lengths differ it returns false from the length
guard having performed 0 byte comparisons (not `min(|x|, |y|)`). -/
theorem constant_eq_correct (x y : List Nat) :
    (constant_eq x y = true ↔ x = y) ∧
    (x.length = y.length → constant_eq_comparisons x y = min x.length y.length) ∧
    (x.length ≠ y.length → constant_eq x y = false ∧ constant_eq_comparisons x y = 0) := by
  refine ⟨constant_eq_iff x y, ?_, ?_⟩
  · intro h
    unfold constant_eq_comparisons
    rw [if_neg (not_not_intro h), h, Nat.min_self]
  · intro h
    unfold constant_eq constant_eq_comparisons
    rw [if_pos h, if_pos h]
    exact ⟨rfl, rfl⟩

theorem constant_eq_correct_witness :
    ([1, 2] : List Nat).length = ([1, 2] : List Nat).length ∧
    constant_eq_comparisons [1, 2] [1, 2] = min ([1, 2] : List Nat).length ([1, 2] : List Nat).length :=
  ⟨rfl, (constant_eq_correct [1, 2] [1, 2]).2.1 rfl⟩

/-- C9 counterexample: on inputs of lengths 1 and 2 `constant_eq` returns
false straight from the length guard, performing 0 byte comparisons while
`min(|x|, |y|) = 1` — it does not examine every byte position up to the
shorter length when the lengths differ. -/
theorem constant_eq_comparisons_counterexample :
    constant_eq_comparisons [0] [0, 0] = 0 ∧
    min ([0] : List Nat).length ([0, 0] : List Nat).length = 1 ∧
    constant_eq [0] [0, 0] = false :=
  ⟨rfl, rfl, rfl⟩

/-- C10 (amended): the gateway enforces no multiple-of-3 validation on the
manifest: whenever the plaintext's 3-byte chunks all parse (valid tag
bytes), it parses exactly `⌊n/3⌋` `Port` records from consecutive chunks in
order into the port list and the port-to-index map, and 1 or 2 trailing
bytes are silently ignored; a chunk with a tag byte other than 0 or 1,
however, panics instead of parsing (see `Port.from_bytes`). -/
theorem manifest_parse_chunks (raw extra : List Nat) (ports : List Port) (i : Nat)
    (hp : parsePortsList raw = some ports) (hextra : extra.length ≤ 2)
    (hm : raw.length % 3 = 0) (hi : i < ports.length) :
    gatewayParseManifest raw = Outcome.ok (ports, portIndexMap ports 0) ∧
    ports.length = raw.length / 3 ∧
    ports[i]? = Port.from_bytes ((raw.drop (3 * i)).take 3) ∧
    gatewayParseManifest (raw ++ extra) = gatewayParseManifest raw := by
  refine ⟨?_, parsePortsList_length raw ports hp, parsePortsList_get raw ports i hp hi, ?_⟩
  · unfold gatewayParseManifest
    rw [hp]
  · unfold gatewayParseManifest
    rw [parsePortsList_append raw extra hm hextra]

theorem manifest_parse_chunks_witness :
    (parsePortsList [0, 0, 1, 0, 80, 0] = some [⟨0, Protocol.TCP⟩, ⟨80, Protocol.UDP⟩] ∧
     ([9] : List Nat).length ≤ 2 ∧
     ([0, 0, 1, 0, 80, 0] : List Nat).length % 3 = 0 ∧
     0 < ([⟨0, Protocol.TCP⟩, ⟨80, Protocol.UDP⟩] : List Port).length) ∧
    (gatewayParseManifest [0, 0, 1, 0, 80, 0]
        = Outcome.ok ([⟨0, Protocol.TCP⟩, ⟨80, Protocol.UDP⟩],
            portIndexMap [⟨0, Protocol.TCP⟩, ⟨80, Protocol.UDP⟩] 0) ∧
     ([⟨0, Protocol.TCP⟩, ⟨80, Protocol.UDP⟩] : List Port).length
        = ([0, 0, 1, 0, 80, 0] : List Nat).length / 3 ∧
     ([⟨0, Protocol.TCP⟩, ⟨80, Protocol.UDP⟩] : List Port)[0]?
        = Port.from_bytes ((([0, 0, 1, 0, 80, 0] : List Nat).drop (3 * 0)).take 3) ∧
     gatewayParseManifest ([0, 0, 1, 0, 80, 0] ++ [9])
        = gatewayParseManifest [0, 0, 1, 0, 80, 0]) :=
  ⟨⟨by decide, by decide, by decide, by decide⟩,
   manifest_parse_chunks [0, 0, 1, 0, 80, 0] [9] [⟨0, Protocol.TCP⟩, ⟨80, Protocol.UDP⟩] 0
     (by decide) (by decide) (by decide) (by decide)⟩

/-- C10 counterexample: the decrypted 3-byte manifest plaintext `[0, 0, 7]`
has `⌊3/3⌋ = 1` record, but the gateway does not parse it into the port
list: the invalid tag byte 7 makes `Port::from_bytes` panic. -/
theorem manifest_parse_counterexample :
    gatewayParseManifest [0, 0, 7] = Outcome.panics ∧
    ([0, 0, 7] : List Nat).length / 3 = 1 := by
  exact ⟨rfl, by decide⟩

end Smugglrs
